import Mathlib

/-!
Verification development for the Real Intent → Mailchimp lead pipeline
(`app.py`, `lead_tagger/base.py`, `lead_tagger/standard.py`,
`lead_tagger/custom_1.py`).

The pandas `DataFrame` rows are embedded as association lists from column
names to cell values; a cell value is either a string, an (integer-valued)
number, or the missing marker `NaN`/`None` (`Val.null`).  Fallible Python
code (attribute errors, `list.index` lookup failures) is embedded in the
`Except` monad.
-/

namespace RIMailchimp

/-- A pandas cell value: `null` stands for `NaN`/`None`, `vstr` for a string
cell, `vnum` for an integer-valued numeric cell. -/
inductive Val where
  | null : Val
  | vstr : String → Val
  | vnum : Int → Val
deriving DecidableEq, Repr

/-- A pandas row (`pd.Series`): an association list from column name to value,
in column order. -/
abbrev Record := List (String × Val)

/-- `row.get(col)` / `row[col]` on a pandas `Series`: value of the first entry
with the given key, `none` when the column is absent. -/
def getVal (r : Record) (k : String) : Option Val :=
  (r.find? (fun kv => kv.1 == k)).map (fun kv => kv.2)

/-- `pd.notna(v)` on a looked-up cell: `False` exactly for a missing column
(`Series.get` returns `None`) or a `NaN` cell. -/
def notna : Option Val → Bool
  | none => false
  | some Val.null => false
  | some (Val.vstr _) => true
  | some (Val.vnum _) => true

/-- `row[k] = v` on a pandas `Series`: overwrite the existing entry for `k`,
or append a new entry at the end. -/
def setField : Record → String → Val → Record
  | [], k, v => [(k, v)]
  | kv :: rest, k, v =>
    if kv.1 == k then (k, v) :: rest else kv :: setField rest k v

/-- The `email_columns` list of `normalize_emails` (`app.py`). -/
def emailColumns : List String := ["email_1", "email_2", "email_3"]

/-- `row.drop(email_columns)`: the row without the three raw email columns. -/
def dropEmailCols (r : Record) : Record :=
  r.filter (fun kv => !(emailColumns.contains kv.1))

/-- `str.strip()` in Python: remove leading and trailing whitespace
characters (embedded over the string's character list). -/
def pyStrip (s : String) : String :=
  String.mk (((s.data.dropWhile Char.isWhitespace).reverse.dropWhile Char.isWhitespace).reverse)

/-- `val.strip()` in Python: succeeds (trimming whitespace) only on a string;
on a non-string value it raises `AttributeError`. -/
def stripVal : Val → Except String String
  | Val.vstr s => Except.ok (pyStrip s)
  | Val.null => Except.error "AttributeError: strip on non-string value"
  | Val.vnum _ => Except.error "AttributeError: strip on non-string value"

/-- The inner loop of `normalize_emails` (`app.py` lines 119-122): walk the
email columns, collecting `row[col].strip()` for every `pd.notna` slot.  The
first non-string slot raises. -/
def collectEmails (row : Record) : List String → Except String (List String)
  | [] => Except.ok []
  | c :: cs =>
    if notna (getVal row c) then
      match stripVal ((getVal row c).getD Val.null) with
      | Except.error e => Except.error e
      | Except.ok email =>
        match collectEmails row cs with
        | Except.error e => Except.error e
        | Except.ok rest => Except.ok (email :: rest)
    else collectEmails row cs

/-- `normalize_emails` restricted to one input row (`app.py` lines 118-134):
one output row per collected email, with the raw email columns dropped and
`email` set; when no email was collected, a single output row with
`email = None`. -/
def normalizeRow (row : Record) : Except String (List Record) :=
  match collectEmails row emailColumns with
  | Except.error e => Except.error e
  | Except.ok emails =>
    if emails.isEmpty then
      Except.ok [setField (dropEmailCols row) "email" Val.null]
    else
      Except.ok (emails.map (fun e => setField (dropEmailCols row) "email" (Val.vstr e)))

/-- Error-propagating map over a list, evaluated left to right: the embedding
of a Python `for` loop whose body may raise. -/
def exMapM {α β : Type} (f : α → Except String β) : List α → Except String (List β)
  | [] => Except.ok []
  | a :: as =>
    match f a with
    | Except.error e => Except.error e
    | Except.ok b =>
      match exMapM f as with
      | Except.error e => Except.error e
      | Except.ok bs => Except.ok (b :: bs)

/-- `normalize_emails` (`app.py` lines 106-135) over the whole frame: the
per-row outputs concatenated in input order; the first failing row's
exception propagates. -/
def normalize_emails (rows : List Record) : Except String (List Record) :=
  match exMapM normalizeRow rows with
  | Except.error e => Except.error e
  | Except.ok rss => Except.ok rss.flatten

/-- `df.dropna(subset=["email"])` (`app.py` line 294): keep the rows whose
`email` cell is not `NaN`. -/
def dropnaEmail (rows : List Record) : List Record :=
  rows.filter (fun r => notna (getVal r "email"))

/-- A user-supplied tag mapping (`dict[str, list[str]]`): an association list
from intent-column name to its tag list, in dict insertion order. -/
abbrev TagMapping := List (String × List String)

/-- Add one element to a Python `set` modelled as an insertion-ordered
duplicate-free list: a no-op when the element is already present. -/
def addTag (acc : List String) (t : String) : List String :=
  if acc.contains t then acc else acc ++ [t]

/-- The candidate tag set shared by both taggers (`standard.py` lines 6-10,
`custom_1.py` lines 7-11): union of `tags_list` over every mapping column
whose cell in the row is `pd.notna`.  The Python `set` is modelled as an
insertion-ordered duplicate-free list; the theorems below depend only on its
membership, never on its order, so the unspecified hash order of a real
Python set is immaterial. -/
def firedTags (m : TagMapping) (row : Record) : List String :=
  m.foldl (fun acc kv => if notna (getVal row kv.1) then kv.2.foldl addTag acc else acc) []

/-- Executable lexicographic comparison of character lists, as Python
compares strings (by code point).  Agrees with Mathlib's `≤` on `List Char`
(`charListLeb_iff` below). -/
def charListLeb : List Char → List Char → Bool
  | [], _ => true
  | _ :: _, [] => false
  | a :: as, b :: bs => if a < b then true else if b < a then false else charListLeb as bs

/-- Python's `<=` on strings, executable.  Agrees with Mathlib's `≤` on
`String` (`pyStrLe_iff` below). -/
def pyStrLe (a b : String) : Prop := charListLeb a.data b.data = true

instance : DecidableRel pyStrLe := fun a b =>
  inferInstanceAs (Decidable (charListLeb a.data b.data = true))

/-- `StandardTagger.generate_tags` (`standard.py`): the fired tags, sorted
(Python `sorted` on distinct strings) and joined with `", "`. -/
def StandardTagger.generate_tags (m : TagMapping) (row : Record) : String :=
  String.intercalate ", " (List.insertionSort pyStrLe (firedTags m row))

/-- Python `list.index(t)`: index of the first occurrence, or a `ValueError`
(here `none`) when absent. -/
def pyIndex (t : String) : List String → Option Nat
  | [] => none
  | p :: ps => if p == t then some 0 else (pyIndex t ps).map (fun i => i + 1)

/-- Comparison of decorated (sort-key, element) pairs: Python
`sorted(..., key=...)` compares keys only. -/
def keyLe (a b : Nat × String) : Prop := a.1 ≤ b.1

instance : DecidableRel keyLe := fun a b => Nat.decLe a.1 b.1

instance : IsTotal (Nat × String) keyLe := ⟨fun a b => Nat.le_total a.1 b.1⟩

instance : IsTrans (Nat × String) keyLe := ⟨fun _ _ _ => Nat.le_trans⟩

/-- `Custom_1_Tagger.generate_tags` (`custom_1.py`):
`sorted(tags, key=lambda x: self.priority_list.index(x))`, then the first
element, or `''` when the set is empty.  The sort-by-key is embedded as
decorate (evaluating `priority_list.index` on every fired tag, raising
`ValueError` on a missing one, exactly as Python's `sorted` evaluates its
key), sort on the key, and take the first element's tag.
`pick` is the tail of the Python expression: propagate a `ValueError` from
the key, else `sorted_tags[0] if sorted_tags else ''`. -/
def Custom_1_Tagger.pick : Except String (List (Nat × String)) → Except String String
  | Except.error e => Except.error e
  | Except.ok keyed =>
    match List.insertionSort keyLe keyed with
    | [] => Except.ok ""
    | kt :: _ => Except.ok kt.2

/-- `Custom_1_Tagger.generate_tags` (`custom_1.py` lines 6-15); see the
comment on `Custom_1_Tagger.pick`. -/
def Custom_1_Tagger.generate_tags (m : TagMapping) (prio : List String) (row : Record) :
    Except String String :=
  Custom_1_Tagger.pick (exMapM (fun t =>
    match pyIndex t prio with
    | some i => Except.ok (i, t)
    | none => Except.error ("ValueError: " ++ t ++ " is not in list")) (firedTags m row))

/-- `BaseTagger.apply_tags` (`base.py` lines 10-12) for a tagger whose
`generate_tags` cannot raise (the StandardTagger): compute the tag string of
every (original) row and store it in the `tags` column.  `BaseTagger.__init__`
copies the frame (`df.copy()`), so the caller's frame is untouched; the
embedding is pure, so this is a new list of new records. -/
def apply_tags (rows : List Record) (gen : Record → String) : List Record :=
  rows.map (fun r => setField r "tags" (Val.vstr (gen r)))

/-- `BaseTagger.apply_tags` for a tagger whose `generate_tags` may raise (the
Custom_1_Tagger): `df.apply` propagates the first row's exception. -/
def apply_tags_e (rows : List Record) (gen : Record → Except String String) :
    Except String (List Record) :=
  exMapM (fun r =>
    match gen r with
    | Except.error e => Except.error e
    | Except.ok t => Except.ok (setField r "tags" (Val.vstr t))) rows

/-- The two tagger classes selectable in the app (`app.py` line 334). -/
inductive TaggerCls where
  | standard : TaggerCls
  | custom1 : TaggerCls
deriving DecidableEq, Repr

/-- `tag_leads` (`app.py` lines 247-250): instantiate the chosen tagger class
with the frame, mapping and optional priority list and run `apply_tags`.
`BaseTagger.__init__` stores `priority_list if priority_list else []`, so
both `None` and `[]` become `[]`. -/
def tag_leads (rows : List Record) (m : TagMapping) (cls : TaggerCls)
    (prio : Option (List String)) : Except String (List Record) :=
  let plist := match prio with
    | none => []
    | some l => if l.isEmpty then [] else l
  match cls with
  | TaggerCls.standard => apply_tags_e rows (fun r => Except.ok (StandardTagger.generate_tags m r))
  | TaggerCls.custom1 => apply_tags_e rows (fun r => Custom_1_Tagger.generate_tags m plist r)

/-- The minimum required input columns (`app.py` line 282). -/
def requiredColumns : List String :=
  ["email_1", "email_2", "email_3", "first_name", "last_name"]

/-- How a run of the upload pipeline can halt: the explicit missing-columns
`st.error`/`st.stop` (`app.py` lines 285-287), or an uncaught Python
exception escaping `normalize_emails`. -/
inductive PipeErr where
  | missingColumns : List String → PipeErr
  | uncaught : String → PipeErr
deriving DecidableEq, Repr

/-- The columns the app hoists to the front after normalization
(`app.py` line 297). -/
def hoistCols : List String := ["email", "first_name", "last_name"]

/-- The column reorder `df[["email", "first_name", "last_name"] + rest]`
(`app.py` line 297) on one row: the hoisted columns first, in that order,
then the remaining fields in their existing order.  Every row of a real
pandas frame carries every header column, so on the pipeline's reachable
non-empty frames this only permutes each record's fields. -/
def hoistRecord (r : Record) : Record :=
  (hoistCols.filterMap (fun k => (getVal r k).map (fun v => (k, v)))) ++
    r.filter (fun kv => !(hoistCols.contains kv.1))

/-- The upload pipeline (`app.py` lines 280-297): check the required columns
(halting with the missing ones), then `normalize_emails`, then optionally
`df.dropna(subset=["email"])` when the include-no-email checkbox is off,
then the line-297 column hoist.  When the input has zero data rows,
`normalize_emails` returns `pd.DataFrame([])`, a frame with *no columns*,
and the first column operation on it — line 294's
`dropna(subset=["email"])` with retention off, line 297's
`df[["email", ...]]` hoist with retention on — raises `KeyError`: both
paths are modelled by the one `uncaught "KeyError: email"` outcome. -/
def runPipeline (cols : List String) (rows : List Record) (includeNoEmail : Bool) :
    Except PipeErr (List Record) :=
  let missing := requiredColumns.filter (fun c => !(cols.contains c))
  if missing.isEmpty then
    match normalize_emails rows with
    | Except.error e => Except.error (PipeErr.uncaught e)
    | Except.ok normalized =>
      if normalized.isEmpty then Except.error (PipeErr.uncaught "KeyError: email")
      else
        Except.ok ((if includeNoEmail then normalized else dropnaEmail normalized).map
          hoistRecord)
  else Except.error (PipeErr.missingColumns missing)

/-- `str(int(float(s)))` in Python, for decimal literals: after stripping
whitespace, an optional sign followed by digits with an optional `.` and
fractional digits canonicalizes to the integer-part digits without leading
zeros (`int` truncates toward zero, so the fractional digits are dropped;
`"0"` when the integer part is empty or all zero, the `-` kept when the
truncated value is negative); anything else raises (`none`).
Exponent and underscore literals and `inf`/`nan`, which Python's `float`
also accepts, stay outside the model: no theorem below quantifies over a
string containing any of their characters (see `pyFloatLiteralChar`).
Float rounding cannot affect the behavior the theorems state: integer
values whose canonical form has at most 15 digits are exactly
representable, longer ones keep length `≥ 16` under rounding, and with a
fractional part of at most 5 digits (the bound the theorems use) the value
stays more than half an ulp below the next integer whenever the integer
part has at most 10 digits, so truncation agrees with Python exactly where
the 10-character test could be affected.
`core neg ds` canonicalizes the part `ds` after an optional `-` sign:
fails unless `ds` is digits optionally followed by `.` and digits (at
least one digit in all), else strips the integer part's leading zeros
(yielding `"0"` when none remain, and re-attaching the `-` otherwise). -/
def pyFloatIntStr.core (neg : Bool) (ds : List Char) : Option String :=
  let intPart := ds.takeWhile Char.isDigit
  let rest := ds.dropWhile Char.isDigit
  let shapeOk :=
    match rest with
    | [] => !intPart.isEmpty
    | c :: fr => c == '.' && (!intPart.isEmpty || !fr.isEmpty) && fr.all Char.isDigit
  if shapeOk then
    let stripped := intPart.dropWhile (fun d => d == '0')
    if stripped.isEmpty then some "0"
    else if neg then some (String.mk ('-' :: stripped))
    else some (String.mk stripped)
  else none

def pyFloatIntStr (s : String) : Option String :=
  match (pyStrip s).data with
  | [] => none
  | c :: cs =>
    if c = '-' then pyFloatIntStr.core true cs
    else if c = '+' then pyFloatIntStr.core false cs
    else pyFloatIntStr.core false (c :: cs)

/-- A cell on which Python `.strip()` cannot raise: anything but a non-null
non-string (numeric) value. -/
def slotClean : Option Val → Bool
  | some (Val.vnum _) => false
  | _ => true

/-- The number of email slots of a row that are `pd.notna` — the quantity
`normalize_emails` actually branches on. -/
def notnaEmailCount (row : Record) : Nat :=
  (emailColumns.filter (fun c => notna (getVal row c))).length

/-- Modelled from the spec (for comparison with the code, not taken from the
code): the count of email slots holding a non-null value that is non-empty
after trimming surrounding whitespace ("the count of non-empty emails"). -/
def specNonEmptyEmailCount (row : Record) : Nat :=
  (emailColumns.filter (fun c =>
    match getVal row c with
    | some (Val.vstr s) => !(pyStrip s == "")
    | _ => false)).length

/-- Modelled from the spec (for comparison with the code, not taken from the
code): "the number of normalized output records equals the count of
non-empty emails, or 1 if empty-retention is on and there were zero emails,
or 0 otherwise". -/
def specNormalizedCount (row : Record) (retain : Bool) : Nat :=
  if specNonEmptyEmailCount row = 0 then (if retain then 1 else 0)
  else specNonEmptyEmailCount row

/-- A well-behaved lead row: two string emails (one needing trimming), one
`NaN` slot. -/
def wRowC1 : Record :=
  [("email_1", Val.vstr "a@x.com "), ("email_2", Val.null),
   ("email_3", Val.vstr "b@x.com"), ("first_name", Val.vstr "A")]

/-- A lead row whose only non-null email slot is a whitespace-only string:
`pd.notna` accepts it, trimming leaves the empty string. -/
def cexRowC1 : Record :=
  [("email_1", Val.vstr " "), ("email_2", Val.null), ("email_3", Val.null)]

/-- A lead row with string/null email slots only. -/
def wRowC5 : Record :=
  [("email_1", Val.vstr "x@y.com"), ("email_2", Val.null), ("email_3", Val.null)]

/-- A lead row whose `email_1` cell is numeric (as pandas produces for an
all-numeric CSV column): `pd.notna` accepts it and `.strip()` raises. -/
def cexRowC5 : Record :=
  [("email_1", Val.vnum 5551234567), ("email_2", Val.null), ("email_3", Val.null)]

/-- A complete lead row (all required columns present) whose `email_1` cell
is numeric. -/
def cexRowC7 : Record :=
  [("email_1", Val.vnum 4155550100), ("email_2", Val.null), ("email_3", Val.null),
   ("first_name", Val.vstr "A"), ("last_name", Val.vstr "B")]

/-! ### Helper lemmas -/

theorem charListLeb_not_lex (as : List Char) :
    ∀ bs : List Char, charListLeb as bs = true ↔ ¬ List.Lex (fun a b : Char => a < b) bs as := by
  induction as with
  | nil =>
    intro bs
    simp [charListLeb]
  | cons a as ih =>
    intro bs
    cases bs with
    | nil =>
      simp only [charListLeb]
      constructor
      · intro h
        exact absurd h (by simp)
      · intro h
        exact absurd List.Lex.nil h
    | cons b bs =>
      by_cases hab : a < b
      · simp only [charListLeb, if_pos hab]
        constructor
        · intro _ hlex
          cases hlex with
          | cons h => exact lt_irrefl a hab
          | rel h => exact lt_asymm hab h
        · intro _
          trivial
      · by_cases hba : b < a
        · simp only [charListLeb, if_neg hab, if_pos hba]
          constructor
          · intro h
            exact absurd h (by simp)
          · intro h
            exact absurd (List.Lex.rel hba) h
        · have heq : a = b := le_antisymm (le_of_not_lt hba) (le_of_not_lt hab)
          subst heq
          simp only [charListLeb, if_neg hab, if_neg hba]
          rw [ih bs]
          constructor
          · intro h hlex
            exact h (List.Lex.cons_iff.mp hlex)
          · intro h hlex
            exact h (List.Lex.cons hlex)

theorem charListLeb_iff (as bs : List Char) : charListLeb as bs = true ↔ as ≤ bs := by
  rw [charListLeb_not_lex as bs]
  constructor
  · intro h
    rw [← not_lt]
    exact h
  · intro h
    rw [← not_lt] at h
    exact h

theorem pyStrLe_iff (a b : String) : pyStrLe a b ↔ a ≤ b := by
  rw [pyStrLe, charListLeb_iff]
  constructor
  · intro h
    exact String.le_iff_toList_le.mpr h
  · intro h
    exact String.le_iff_toList_le.mp h

instance : IsTotal String pyStrLe :=
  ⟨fun a b => by
    rw [pyStrLe_iff, pyStrLe_iff]
    exact le_total a b⟩

instance : IsTrans String pyStrLe :=
  ⟨fun a b c hab hbc => by
    rw [pyStrLe_iff] at hab hbc ⊢
    exact le_trans hab hbc⟩

instance : IsAntisymm String pyStrLe :=
  ⟨fun a b hab hba => by
    rw [pyStrLe_iff] at hab hba
    exact le_antisymm hab hba⟩

theorem getVal_cons (kv : String × Val) (rest : Record) (k : String) :
    getVal (kv :: rest) k = if kv.1 == k then some kv.2 else getVal rest k := by
  by_cases h : kv.1 == k <;> simp [getVal, List.find?, h]

theorem getVal_setField_self (r : Record) (k : String) (v : Val) :
    getVal (setField r k v) k = some v := by
  induction r with
  | nil => simp [setField, getVal, List.find?]
  | cons kv rest ih =>
    by_cases h : kv.1 == k
    · simp [setField, h, getVal_cons]
    · simp only [setField, h, if_neg, Bool.false_eq_true, not_false_eq_true, ite_false]
      rw [getVal_cons, if_neg (by simp_all), ih]

theorem getVal_setField_ne (r : Record) (k f : String) (v : Val) (hf : f ≠ k) :
    getVal (setField r k v) f = getVal r f := by
  induction r with
  | nil =>
    simp only [setField, getVal, List.find?]
    rw [show (k == f) = false from beq_eq_false_iff_ne.mpr (fun e => hf e.symm)]
  | cons kv rest ih =>
    by_cases h : kv.1 == k
    · simp only [setField, h, ite_true]
      rw [getVal_cons, getVal_cons, if_neg (by simp [beq_eq_false_iff_ne]; exact fun e => hf e.symm)]
      rw [if_neg]
      rw [show kv.1 = k from by simpa using h]
      simp [beq_eq_false_iff_ne]
      exact fun e => hf e.symm
    · simp only [setField, h, Bool.false_eq_true, not_false_eq_true, ite_false]
      rw [getVal_cons, getVal_cons, ih]

theorem mem_addTag (acc : List String) (t u : String) :
    u ∈ addTag acc t ↔ u ∈ acc ∨ u = t := by
  by_cases h : acc.contains t
  · have ht : t ∈ acc := by simpa using h
    simp only [addTag, h, ite_true]
    constructor
    · exact Or.inl
    · rintro (hu | rfl)
      · exact hu
      · exact ht
  · have ht : t ∉ acc := by simpa using h
    simp [addTag, ht]

theorem nodup_addTag (acc : List String) (t : String) (h : acc.Nodup) :
    (addTag acc t).Nodup := by
  by_cases hc : t ∈ acc
  · simpa [addTag, hc] using h
  · simp [addTag, hc, List.nodup_append, h]

theorem mem_foldl_addTag (ts : List String) :
    ∀ (acc : List String) (u : String), u ∈ ts.foldl addTag acc ↔ u ∈ acc ∨ u ∈ ts := by
  induction ts with
  | nil => simp
  | cons t ts ih =>
    intro acc u
    simp only [List.foldl_cons, ih, mem_addTag, List.mem_cons]
    tauto

theorem nodup_foldl_addTag (ts : List String) :
    ∀ acc : List String, acc.Nodup → (ts.foldl addTag acc).Nodup := by
  induction ts with
  | nil => exact fun _ h => h
  | cons t ts ih =>
    intro acc h
    exact ih (addTag acc t) (nodup_addTag acc t h)

theorem mem_firedTags_aux (row : Record) (m : TagMapping) :
    ∀ (acc : List String) (u : String),
      u ∈ m.foldl (fun acc kv => if notna (getVal row kv.1) then kv.2.foldl addTag acc else acc) acc ↔
        u ∈ acc ∨ ∃ p ∈ m, notna (getVal row p.1) = true ∧ u ∈ p.2 := by
  induction m with
  | nil => simp
  | cons p m ih =>
    intro acc u
    by_cases h : notna (getVal row p.1)
    · simp only [List.foldl_cons, h, ite_true, ih, mem_foldl_addTag, List.mem_cons]
      constructor
      · rintro ((hu | hu) | ⟨q, hq, hv, hu⟩)
        · exact Or.inl hu
        · exact Or.inr ⟨p, Or.inl rfl, h, hu⟩
        · exact Or.inr ⟨q, Or.inr hq, hv, hu⟩
      · rintro (hu | ⟨q, hq | hq, hv, hu⟩)
        · exact Or.inl (Or.inl hu)
        · exact Or.inl (Or.inr (hq ▸ hu))
        · exact Or.inr ⟨q, hq, hv, hu⟩
    · simp only [List.foldl_cons, h, ite_false, ih, List.mem_cons]
      constructor
      · rintro (hu | ⟨q, hq, hv, hu⟩)
        · exact Or.inl hu
        · exact Or.inr ⟨q, Or.inr hq, hv, hu⟩
      · rintro (hu | ⟨q, hq | hq, hv, hu⟩)
        · exact Or.inl hu
        · exact absurd hv (by rw [← hq] at h; simpa using h)
        · exact Or.inr ⟨q, hq, hv, hu⟩

theorem mem_firedTags (m : TagMapping) (row : Record) (u : String) :
    u ∈ firedTags m row ↔ ∃ p ∈ m, notna (getVal row p.1) = true ∧ u ∈ p.2 := by
  rw [firedTags, mem_firedTags_aux]
  simp

theorem nodup_firedTags_aux (row : Record) (m : TagMapping) :
    ∀ acc : List String, acc.Nodup →
      (m.foldl (fun acc kv => if notna (getVal row kv.1) then kv.2.foldl addTag acc else acc) acc).Nodup := by
  induction m with
  | nil => exact fun _ h => h
  | cons p m ih =>
    intro acc h
    by_cases hp : notna (getVal row p.1)
    · simp only [List.foldl_cons, hp, ite_true]
      exact ih _ (nodup_foldl_addTag p.2 acc h)
    · simp only [List.foldl_cons, hp, ite_false]
      exact ih _ h

theorem nodup_firedTags (m : TagMapping) (row : Record) : (firedTags m row).Nodup :=
  nodup_firedTags_aux row m [] List.nodup_nil

theorem pyIndex_isSome_of_mem (t : String) (l : List String) (h : t ∈ l) :
    ∃ i, pyIndex t l = some i := by
  induction l with
  | nil => cases h
  | cons p ps ih =>
    by_cases hp : p == t
    · exact ⟨0, by simp [pyIndex, hp]⟩
    · rcases List.mem_cons.mp h with hh | hh
      · exact absurd (beq_iff_eq.mpr hh.symm) (by simpa using hp)
      · obtain ⟨i, hi⟩ := ih hh
        exact ⟨i + 1, by simp [pyIndex, hp, hi]⟩

theorem pyIndex_eq_none_of_not_mem (t : String) (l : List String) (h : t ∉ l) :
    pyIndex t l = none := by
  induction l with
  | nil => rfl
  | cons p ps ih =>
    have hp : (p == t) = false := by
      simp only [beq_eq_false_iff_ne]
      exact fun e => h (e ▸ List.mem_cons_self p ps)
    simp only [pyIndex, hp, Bool.false_eq_true, not_false_eq_true, ite_false]
    rw [ih (fun hm => h (List.mem_cons_of_mem p hm))]
    rfl

theorem exMapM_ok_map {α β : Type} (f : α → Except String β) (g : α → β)
    (l : List α) (h : ∀ a ∈ l, f a = Except.ok (g a)) :
    exMapM f l = Except.ok (l.map g) := by
  induction l with
  | nil => rfl
  | cons a as ih =>
    have ha : f a = Except.ok (g a) := h a (List.mem_cons_self a as)
    have has : exMapM f as = Except.ok (as.map g) :=
      ih (fun b hb => h b (List.mem_cons_of_mem a hb))
    simp [exMapM, ha, has]

theorem exMapM_error {α β : Type} (f : α → Except String β) (l : List α)
    (h : ∃ a ∈ l, ∀ b : β, f a ≠ Except.ok b) :
    ∃ e, exMapM f l = Except.error e := by
  induction l with
  | nil => simp at h
  | cons a as ih =>
    match hfa : f a with
    | Except.error e => exact ⟨e, by simp [exMapM, hfa]⟩
    | Except.ok b =>
      obtain ⟨x, hx, hbad⟩ := h
      rcases List.mem_cons.mp hx with rfl | hx
      · exact absurd hfa (hbad b)
      · obtain ⟨e, he⟩ := ih ⟨x, hx, hbad⟩
        exact ⟨e, by simp [exMapM, hfa, he]⟩

theorem exMapM_ok_forall {α β : Type} (f : α → Except String β) (l : List α)
    (h : ∀ a ∈ l, ∃ b, f a = Except.ok b) :
    ∃ bs, exMapM f l = Except.ok bs := by
  induction l with
  | nil => exact ⟨[], rfl⟩
  | cons a as ih =>
    obtain ⟨b, hb⟩ := h a (List.mem_cons_self a as)
    obtain ⟨bs, hbs⟩ := ih (fun x hx => h x (List.mem_cons_of_mem a hx))
    exact ⟨b :: bs, by simp [exMapM, hb, hbs]⟩

theorem collectEmails_ok (row : Record) (cs : List String)
    (h : ∀ c ∈ cs, slotClean (getVal row c) = true) :
    ∃ es : List String, collectEmails row cs = Except.ok es ∧
      es.length = (cs.filter (fun c => notna (getVal row c))).length := by
  induction cs with
  | nil => exact ⟨[], rfl, rfl⟩
  | cons c cs ih =>
    obtain ⟨es, hes, hlen⟩ := ih (fun x hx => h x (List.mem_cons_of_mem c hx))
    by_cases hn : notna (getVal row c) = true
    · obtain ⟨s, hs⟩ : ∃ s, getVal row c = some (Val.vstr s) := by
        have hc := h c (List.mem_cons_self c cs)
        match hv : getVal row c with
        | none => rw [hv] at hn; exact absurd hn (by simp [notna])
        | some Val.null => rw [hv] at hn; exact absurd hn (by simp [notna])
        | some (Val.vstr s) => exact ⟨s, rfl⟩
        | some (Val.vnum n) => rw [hv] at hc; exact absurd hc (by simp [slotClean])
      refine ⟨pyStrip s :: es, ?_, ?_⟩
      · simp [collectEmails, hn, hs, stripVal, hes, notna]
      · simp [List.filter_cons, hn, hlen]
    · refine ⟨es, ?_, ?_⟩
      · simp [collectEmails, hn, hes]
      · simp [List.filter_cons, hn, hlen]

theorem normalizeRow_ok (row : Record)
    (h : ∀ c ∈ emailColumns, slotClean (getVal row c) = true) :
    ∃ out, normalizeRow row = Except.ok out ∧
      out.length = (if notnaEmailCount row = 0 then 1 else notnaEmailCount row) ∧
      (notnaEmailCount row = 0 → ∀ r ∈ out, getVal r "email" = some Val.null) ∧
      (notnaEmailCount row ≠ 0 → ∀ r ∈ out, ∃ s, getVal r "email" = some (Val.vstr s)) := by
  obtain ⟨es, hes, hlen⟩ := collectEmails_ok row emailColumns h
  rw [show (emailColumns.filter (fun c => notna (getVal row c))).length = notnaEmailCount row
    from rfl] at hlen
  cases es with
  | nil =>
    refine ⟨[setField (dropEmailCols row) "email" Val.null], ?_, ?_, ?_, ?_⟩
    · simp [normalizeRow, hes]
    · simp [← hlen]
    · intro _ r hr
      rw [List.mem_singleton.mp hr]
      exact getVal_setField_self _ _ _
    · intro hne
      exact absurd hlen.symm hne
  | cons e es =>
    refine ⟨(e :: es).map (fun e => setField (dropEmailCols row) "email" (Val.vstr e)), ?_, ?_, ?_, ?_⟩
    · simp [normalizeRow, hes]
    · rw [List.length_map, hlen, if_neg (by rw [← hlen]; simp)]
    · intro h0
      rw [← hlen] at h0
      simp at h0
    · intro _ r hr
      obtain ⟨x, _, hx⟩ := List.mem_map.mp hr
      exact ⟨x, by rw [← hx]; exact getVal_setField_self _ _ _⟩

theorem dropWhile_zeros (k : Nat) (z : List Char) (hz : z.head? ≠ some '0') :
    List.dropWhile (fun d => d == '0') (List.replicate k '0' ++ z) = z := by
  induction k with
  | zero =>
    cases z with
    | nil => rfl
    | cons c cs =>
      have hc : (c == '0') = false := by
        rw [beq_eq_false_iff_ne]
        intro e
        exact hz (by rw [e]; rfl)
      simp [List.dropWhile_cons, hc]
  | succ k ih =>
    rw [List.replicate_succ, List.cons_append, List.dropWhile_cons]
    simpa using ih

theorem takeWhile_all_append {α : Type} (p : α → Bool) (xs ys : List α)
    (hx : ∀ x ∈ xs, p x = true) (hy : ∀ c, ys.head? = some c → p c = false) :
    (xs ++ ys).takeWhile p = xs := by
  induction xs with
  | nil =>
    cases ys with
    | nil => rfl
    | cons c cs => simp [List.takeWhile_cons, hy c rfl]
  | cons x xs ih =>
    rw [List.cons_append, List.takeWhile_cons, if_pos (hx x (List.mem_cons_self x xs)),
      ih (fun a ha => hx a (List.mem_cons_of_mem x ha))]

theorem dropWhile_all_append {α : Type} (p : α → Bool) (xs ys : List α)
    (hx : ∀ x ∈ xs, p x = true) (hy : ∀ c, ys.head? = some c → p c = false) :
    (xs ++ ys).dropWhile p = ys := by
  induction xs with
  | nil =>
    cases ys with
    | nil => rfl
    | cons c cs => simp [List.dropWhile_cons, hy c rfl]
  | cons x xs ih =>
    rw [List.cons_append, List.dropWhile_cons, if_pos (hx x (List.mem_cons_self x xs)),
      ih (fun a ha => hx a (List.mem_cons_of_mem x ha))]

theorem pyFloatIntStr_core_intfrac (k : Nat) (z frac : List Char) (hzne : z ≠ [])
    (hdig : ∀ c ∈ z, c.isDigit = true) (hz0 : z.head? ≠ some '0')
    (hfrac : frac = [] ∨ ∃ fr, frac = '.' :: fr ∧ ∀ c ∈ fr, c.isDigit = true) :
    pyFloatIntStr.core false ((List.replicate k '0' ++ z) ++ frac) = some (String.mk z) := by
  have hall : ∀ c ∈ List.replicate k '0' ++ z, Char.isDigit c = true := by
    intro c hc
    rcases List.mem_append.mp hc with h | h
    · rw [List.eq_of_mem_replicate h]
      decide
    · exact hdig c h
  have hfhead : ∀ c, frac.head? = some c → Char.isDigit c = false := by
    rcases hfrac with rfl | ⟨fr, rfl, _⟩
    · intro c hc
      cases hc
    · intro c hc
      rw [show c = '.' from by simpa using hc.symm]
      decide
  have htake := takeWhile_all_append Char.isDigit (List.replicate k '0' ++ z) frac hall hfhead
  have hdrop := dropWhile_all_append Char.isDigit (List.replicate k '0' ++ z) frac hall hfhead
  have hne : ((List.replicate k '0' ++ z).isEmpty) = false := by
    cases z with
    | nil => exact absurd rfl hzne
    | cons c cs => simp
  have hstrip := dropWhile_zeros k z hz0
  have hstripne : z.isEmpty = false := by
    cases z with
    | nil => exact absurd rfl hzne
    | cons c cs => rfl
  rcases hfrac with rfl | ⟨fr, rfl, hfr⟩
  · simp only [pyFloatIntStr.core, htake, hdrop, hne, hstrip, hstripne, Bool.not_false,
      ite_true, Bool.false_eq_true, ite_false]
  · simp only [pyFloatIntStr.core, htake, hdrop, hne, hstrip, hstripne, Bool.not_false,
      List.all_eq_true.mpr hfr, Bool.true_or, Bool.and_true, Bool.true_and, beq_self_eq_true,
      ite_true, Bool.false_eq_true, ite_false]

theorem pyFloatIntStr_core_digits (k : Nat) (z : List Char) (hzne : z ≠ [])
    (hdig : ∀ c ∈ z, c.isDigit = true) (hz0 : z.head? ≠ some '0') :
    pyFloatIntStr.core false (List.replicate k '0' ++ z) = some (String.mk z) := by
  have h := pyFloatIntStr_core_intfrac k z [] hzne hdig hz0 (Or.inl rfl)
  rwa [List.append_nil] at h

theorem normalize_emails_ok (rows : List Record)
    (h : ∀ row ∈ rows, ∀ c ∈ emailColumns, slotClean (getVal row c) = true) :
    ∃ out, normalize_emails rows = Except.ok out := by
  have hrow : ∀ row ∈ rows, ∃ o, normalizeRow row = Except.ok o := by
    intro row hr
    obtain ⟨o, ho, _⟩ := normalizeRow_ok row (h row hr)
    exact ⟨o, ho⟩
  obtain ⟨rss, hrss⟩ := exMapM_ok_forall normalizeRow rows hrow
  exact ⟨rss.flatten, by simp [normalize_emails, hrss]⟩

/-- C1 (amended): for a lead row whose email slots hold only strings or
nulls, `normalize_emails` emits one record per `pd.notna` email slot — the
count of *non-null* slots, not of non-empty emails — or exactly one record
with `email` absent (`None`) when every slot is null, that record surviving
exactly when empty-email retention is enabled. -/
theorem C1_normalized_count (row : Record) (retain : Bool)
    (h : ∀ c ∈ emailColumns, slotClean (getVal row c) = true) :
    ∃ out, normalizeRow row = Except.ok out ∧
      (if retain then out else dropnaEmail out).length =
        (if notnaEmailCount row = 0 then (if retain then 1 else 0) else notnaEmailCount row) ∧
      (notnaEmailCount row = 0 → ∀ r ∈ out, getVal r "email" = some Val.null) := by
  obtain ⟨out, hout, hlen, hnull, hstr⟩ := normalizeRow_ok row h
  refine ⟨out, hout, ?_, hnull⟩
  by_cases h0 : notnaEmailCount row = 0
  · rw [if_pos h0]
    cases retain
    · have hempty : dropnaEmail out = [] := by
        rw [dropnaEmail, List.filter_eq_nil_iff]
        intro r hr
        rw [hnull h0 r hr]
        simp [notna]
      simp [hempty]
    · simpa [h0] using hlen
  · rw [if_neg h0]
    have hkeep : dropnaEmail out = out := by
      rw [dropnaEmail, List.filter_eq_self]
      intro r hr
      obtain ⟨s, hs⟩ := hstr h0 r hr
      rw [hs]
      rfl
    cases retain
    · rw [if_neg (by simp), hkeep]
      simpa [h0] using hlen
    · simpa [h0] using hlen

/-- Witness for C1: on `wRowC1` (two usable emails) the theorem yields
exactly two normalized records. -/
theorem C1_normalized_count_witness :
    (normalizeRow wRowC1).map List.length = Except.ok 2 ∧ notnaEmailCount wRowC1 = 2 := by
  obtain ⟨out, hout, hlen, _⟩ := C1_normalized_count wRowC1 true (by decide)
  have hc : notnaEmailCount wRowC1 = 2 := by decide
  refine ⟨?_, hc⟩
  rw [hout]
  rw [hc] at hlen
  norm_num at hlen
  simp [Except.map, hlen]

/-- Counterexample to C1 as stated: `cexRowC1` has zero non-empty emails
(its only non-null slot trims to `""`), and empty-email retention is off, so
the claim demands 0 output records — but the code emits 1 (with
`email = ""`, which `dropna` keeps). -/
theorem C1_counterexample :
    (normalizeRow cexRowC1).map (fun out => (dropnaEmail out).length) = Except.ok 1 ∧
    specNormalizedCount cexRowC1 false = 0 ∧ (1 : Nat) ≠ 0 :=
  ⟨rfl, rfl, by decide⟩

/-- C5 (amended): `normalize_emails` returns normally on every frame whose
email slots hold only strings or nulls (malformed strings and missing/null
slots included); a non-null *non-string* slot, by contrast, raises. -/
theorem C5_normalize_total (rows : List Record)
    (h : ∀ row ∈ rows, ∀ c ∈ emailColumns, slotClean (getVal row c) = true) :
    ∃ out, normalize_emails rows = Except.ok out :=
  normalize_emails_ok rows h

/-- Witness for C5: the theorem applies to the one-row frame `[wRowC5]`. -/
theorem C5_normalize_total_witness :
    ∃ out, normalize_emails [wRowC5] = Except.ok out :=
  C5_normalize_total [wRowC5] (by decide)

/-- Counterexample to C5 as stated: a numeric email cell is `pd.notna`, so
`normalize_emails` calls `.strip()` on it and raises `AttributeError`
instead of treating it as "no email". -/
theorem C5_counterexample :
    normalize_emails [cexRowC5] = Except.error "AttributeError: strip on non-string value" :=
  rfl

/-- C2: provided every tag in the mapping's values occurs in the priority
list, `Custom_1_Tagger.generate_tags` returns the empty string on an empty
fired-tag set, and otherwise exactly one tag — a member of the fired set
whose position in the priority list is minimal among all fired tags. -/
theorem C2_priority_tag (m : TagMapping) (prio : List String) (row : Record)
    (hp : ∀ p ∈ m, ∀ t ∈ p.2, t ∈ prio) :
    (firedTags m row = [] → Custom_1_Tagger.generate_tags m prio row = Except.ok "") ∧
    (firedTags m row ≠ [] → ∃ t, Custom_1_Tagger.generate_tags m prio row = Except.ok t ∧
      t ∈ firedTags m row ∧
      ∀ u ∈ firedTags m row,
        ∃ i j, pyIndex t prio = some i ∧ pyIndex u prio = some j ∧ i ≤ j) := by
  have hmem : ∀ t ∈ firedTags m row, t ∈ prio := by
    intro t ht
    obtain ⟨p, hpm, _, htp⟩ := (mem_firedTags m row t).mp ht
    exact hp p hpm t htp
  have hkeyed : exMapM (fun t =>
      match pyIndex t prio with
      | some i => Except.ok (i, t)
      | none => Except.error ("ValueError: " ++ t ++ " is not in list")) (firedTags m row)
      = Except.ok ((firedTags m row).map (fun t => ((pyIndex t prio).getD 0, t))) := by
    apply exMapM_ok_map
    intro t ht
    obtain ⟨i, hi⟩ := pyIndex_isSome_of_mem t prio (hmem t ht)
    rw [hi]
    rfl
  constructor
  · intro h0
    simp [Custom_1_Tagger.generate_tags, Custom_1_Tagger.pick, h0, exMapM, List.insertionSort]
  · intro hne
    cases hs : List.insertionSort keyLe
        ((firedTags m row).map (fun t => ((pyIndex t prio).getD 0, t))) with
    | nil =>
      exfalso
      have hperm := List.perm_insertionSort keyLe
        ((firedTags m row).map (fun t => ((pyIndex t prio).getD 0, t)))
      rw [hs] at hperm
      have := hperm.symm.eq_nil
      rw [List.map_eq_nil_iff] at this
      exact hne this
    | cons kt rest =>
      have hgen : Custom_1_Tagger.generate_tags m prio row = Except.ok kt.2 := by
        rw [Custom_1_Tagger.generate_tags, hkeyed]
        simp only [Custom_1_Tagger.pick, hs]
      have hperm := List.perm_insertionSort keyLe
        ((firedTags m row).map (fun t => ((pyIndex t prio).getD 0, t)))
      rw [hs] at hperm
      have hsorted := List.sorted_insertionSort keyLe
        ((firedTags m row).map (fun t => ((pyIndex t prio).getD 0, t)))
      rw [hs] at hsorted
      have hktmem : kt ∈ (firedTags m row).map (fun t => ((pyIndex t prio).getD 0, t)) :=
        hperm.subset (List.mem_cons_self kt rest)
      obtain ⟨t0, ht0f, ht0e⟩ := List.mem_map.mp hktmem
      obtain ⟨i0, hi0⟩ := pyIndex_isSome_of_mem t0 prio (hmem t0 ht0f)
      have hkt2 : kt.2 = t0 := by rw [← ht0e]
      have hkt1 : kt.1 = i0 := by rw [← ht0e, hi0]; rfl
      refine ⟨kt.2, hgen, by rw [hkt2]; exact ht0f, ?_⟩
      intro u hu
      obtain ⟨j, hj⟩ := pyIndex_isSome_of_mem u prio (hmem u hu)
      refine ⟨i0, j, by rw [hkt2]; exact hi0, hj, ?_⟩
      have hgu : ((pyIndex u prio).getD 0, u) ∈
          (firedTags m row).map (fun t => ((pyIndex t prio).getD 0, t)) :=
        List.mem_map.mpr ⟨u, hu, rfl⟩
      have hmem2 : ((pyIndex u prio).getD 0, u) ∈ kt :: rest := hperm.symm.subset hgu
      rcases List.mem_cons.mp hmem2 with heq | htail
      · have : i0 = j := by
          have h1 : ((pyIndex u prio).getD 0 : Nat) = kt.1 := by rw [← heq]
          rw [hj] at h1
          rw [hkt1] at h1
          exact h1.symm
        exact this ▸ Nat.le_refl i0
      · have hle : keyLe kt ((pyIndex u prio).getD 0, u) :=
          List.rel_of_sorted_cons hsorted _ htail
        have : kt.1 ≤ (pyIndex u prio).getD 0 := hle
        rw [hkt1, hj] at this
        exact this

/-- Witness for C2: on the mapping
`{wants_pool: [Pool], wants_garage: [Garage]}` with priority
`[Pool, Garage]` and a row firing both columns, the theorem produces the
single highest-priority tag. -/
theorem C2_priority_tag_witness :
    ∃ t, Custom_1_Tagger.generate_tags
        [("wants_pool", ["Pool"]), ("wants_garage", ["Garage"])] ["Pool", "Garage"]
        [("wants_pool", Val.vstr "x"), ("wants_garage", Val.vstr "y")] = Except.ok t ∧
      t ∈ firedTags [("wants_pool", ["Pool"]), ("wants_garage", ["Garage"])]
        [("wants_pool", Val.vstr "x"), ("wants_garage", Val.vstr "y")] ∧
      ∀ u ∈ firedTags [("wants_pool", ["Pool"]), ("wants_garage", ["Garage"])]
          [("wants_pool", Val.vstr "x"), ("wants_garage", Val.vstr "y")],
        ∃ i j, pyIndex t ["Pool", "Garage"] = some i ∧ pyIndex u ["Pool", "Garage"] = some j ∧
          i ≤ j :=
  (C2_priority_tag _ _ _ (by decide)).2 (by decide)

/-- C4: when some fired tag is absent from the priority list,
`Custom_1_Tagger.generate_tags` fails with a lookup error (`list.index`
raises `ValueError`) instead of skipping or de-prioritizing the tag. -/
theorem C4_priority_lookup_error (m : TagMapping) (prio : List String) (row : Record)
    (h : ∃ t, t ∈ firedTags m row ∧ t ∉ prio) :
    ∃ e, Custom_1_Tagger.generate_tags m prio row = Except.error e := by
  obtain ⟨t, htf, htp⟩ := h
  obtain ⟨e, he⟩ := exMapM_error (fun t =>
    match pyIndex t prio with
    | some i => Except.ok (i, t)
    | none => Except.error ("ValueError: " ++ t ++ " is not in list")) (firedTags m row)
    ⟨t, htf, fun b => by simp [pyIndex_eq_none_of_not_mem t prio htp]⟩
  exact ⟨e, by rw [Custom_1_Tagger.generate_tags, he]; rfl⟩

/-- Witness for C4: the fired tag `X` is absent from the empty priority
list, so the tagger errors. -/
theorem C4_priority_lookup_error_witness :
    ∃ e, Custom_1_Tagger.generate_tags [("intent_a", ["X"])] []
      [("intent_a", Val.vstr "1")] = Except.error e :=
  C4_priority_lookup_error _ _ _ ⟨"X", by decide, by decide⟩

/-- C3: `StandardTagger.generate_tags` returns some list of tags joined by
`", "`, where that list is duplicate-free, ascending in the lexicographic
string order, and holds exactly the tags of the mapping columns whose cell
in the row is present (non-null); when no column fires the result is the
empty string. -/
theorem C3_standard_union (m : TagMapping) (row : Record) :
    ∃ l : List String,
      StandardTagger.generate_tags m row = String.intercalate ", " l ∧
      l.Nodup ∧ List.Sorted (fun a b : String => a ≤ b) l ∧
      (∀ t, t ∈ l ↔ ∃ p ∈ m, notna (getVal row p.1) = true ∧ t ∈ p.2) ∧
      ((∀ p ∈ m, notna (getVal row p.1) = false) → StandardTagger.generate_tags m row = "") := by
  refine ⟨List.insertionSort pyStrLe (firedTags m row), rfl, ?_, ?_, ?_, ?_⟩
  · exact ((List.perm_insertionSort pyStrLe (firedTags m row)).nodup_iff).mpr
      (nodup_firedTags m row)
  · exact List.Pairwise.imp (fun h => (pyStrLe_iff _ _).mp h)
      (List.sorted_insertionSort pyStrLe (firedTags m row))
  · intro t
    rw [List.Perm.mem_iff (List.perm_insertionSort pyStrLe (firedTags m row)), mem_firedTags]
  · intro hnone
    have hempty : List.insertionSort pyStrLe (firedTags m row) = [] := by
      rw [List.eq_nil_iff_forall_not_mem]
      intro t ht
      have hmem := (List.Perm.mem_iff (List.perm_insertionSort pyStrLe (firedTags m row))).mp ht
      obtain ⟨p, hpm, hv, _⟩ := (mem_firedTags m row t).mp hmem
      rw [hnone p hpm] at hv
      simp at hv
    rw [StandardTagger.generate_tags, hempty]
    rfl

/-- C8: the standard tagger's output is invariant under any reordering of
the tag mapping's entries. -/
theorem C8_standard_order_invariant (m₁ m₂ : TagMapping) (row : Record) (hperm : m₁.Perm m₂) :
    StandardTagger.generate_tags m₁ row = StandardTagger.generate_tags m₂ row := by
  have hmem : ∀ t, t ∈ firedTags m₁ row ↔ t ∈ firedTags m₂ row := by
    intro t
    rw [mem_firedTags, mem_firedTags]
    constructor
    · rintro ⟨p, hpm, hv, ht⟩
      exact ⟨p, hperm.subset hpm, hv, ht⟩
    · rintro ⟨p, hpm, hv, ht⟩
      exact ⟨p, hperm.symm.subset hpm, hv, ht⟩
  have hf : (firedTags m₁ row).Perm (firedTags m₂ row) :=
    (List.perm_ext_iff_of_nodup (nodup_firedTags m₁ row) (nodup_firedTags m₂ row)).mpr hmem
  have hsort : List.insertionSort pyStrLe (firedTags m₁ row)
      = List.insertionSort pyStrLe (firedTags m₂ row) :=
    List.eq_of_perm_of_sorted
      ((List.perm_insertionSort pyStrLe _).trans
        (hf.trans (List.perm_insertionSort pyStrLe _).symm))
      (List.sorted_insertionSort pyStrLe _) (List.sorted_insertionSort pyStrLe _)
  rw [StandardTagger.generate_tags, StandardTagger.generate_tags, hsort]

/-- Witness for C8: swapping the two entries of a concrete mapping leaves
the standard tagger's output unchanged. -/
theorem C8_standard_order_invariant_witness :
    StandardTagger.generate_tags [("wants_pool", ["Pool"]), ("wants_garage", ["Garage"])]
        [("wants_pool", Val.vstr "x"), ("wants_garage", Val.vstr "y")]
      = StandardTagger.generate_tags [("wants_garage", ["Garage"]), ("wants_pool", ["Pool"])]
        [("wants_pool", Val.vstr "x"), ("wants_garage", Val.vstr "y")] :=
  C8_standard_order_invariant _ _ _
    (List.Perm.swap ("wants_garage", ["Garage"]) ("wants_pool", ["Pool"]) [])

/-- C9 (amended): `apply_tags` is a per-record frame-preserving transform —
the output has the same records in the same order, agreeing with the input
on every field other than `tags`, and its `tags` field holds the generated
tag string of the corresponding (original) input record.  A pre-existing
`tags` field is overwritten, which is the one departure from the claim as
stated; the caller's input is untouched (`BaseTagger.__init__` copies the
frame, and the embedding is pure). -/
theorem C9_apply_tags_frame (rows : List Record) (gen : Record → String) :
    (apply_tags rows gen).length = rows.length ∧
    (∀ (i : Nat) (f : String), f ≠ "tags" →
      ((apply_tags rows gen)[i]?).map (fun r => getVal r f)
        = (rows[i]?).map (fun r => getVal r f)) ∧
    (∀ i : Nat, ((apply_tags rows gen)[i]?).map (fun r => getVal r "tags")
      = (rows[i]?).map (fun r => some (Val.vstr (gen r)))) := by
  refine ⟨by simp [apply_tags], ?_, ?_⟩
  · intro i f hf
    rw [apply_tags, List.getElem?_map]
    cases hrv : rows[i]? with
    | none => rfl
    | some r => simp [getVal_setField_ne r "tags" f (Val.vstr (gen r)) hf]
  · intro i
    rw [apply_tags, List.getElem?_map]
    cases hrv : rows[i]? with
    | none => rfl
    | some r => simp [getVal_setField_self]

/-- Counterexample to C9 as stated: a record with a pre-existing `tags`
field does not agree with the output on that field — `apply_tags`
overwrites it with the newly generated string. -/
theorem C9_counterexample :
    apply_tags [[("tags", Val.vstr "old"), ("intent_x", Val.vstr "1")]]
        (StandardTagger.generate_tags [("intent_x", ["New"])])
      = [[("tags", Val.vstr "New"), ("intent_x", Val.vstr "1")]] ∧
    getVal [("tags", Val.vstr "old"), ("intent_x", Val.vstr "1")] "tags"
      = some (Val.vstr "old") ∧
    Val.vstr "New" ≠ Val.vstr "old" :=
  ⟨rfl, rfl, by decide⟩

/-- C10: with the standard tagger selected, `tag_leads` ignores the priority
list entirely — any two priority arguments (including `none`) give identical
tagged output. -/
theorem C10_standard_ignores_priority (rows : List Record) (m : TagMapping)
    (p₁ p₂ : Option (List String)) :
    tag_leads rows m TaggerCls.standard p₁ = tag_leads rows m TaggerCls.standard p₂ := rfl

/-- C7 (amended): the pipeline halts on missing required columns — before
touching any row — with an error naming exactly the required columns absent
from the header, and produces no records.  The "only fatal condition" part
of the claim is what fails: with every required column present the pipeline
can still halt fatally (a numeric email cell, a zero-row input), as the
counterexample shows. -/
theorem C7_pipeline_required_columns (cols : List String) (rows : List Record) (inc : Bool) :
    (∀ c : String, c ∈ requiredColumns.filter (fun c => !(cols.contains c)) ↔
      (c ∈ requiredColumns ∧ c ∉ cols)) ∧
    (requiredColumns.filter (fun c => !(cols.contains c)) ≠ [] →
      runPipeline cols rows inc =
        Except.error (PipeErr.missingColumns
          (requiredColumns.filter (fun c => !(cols.contains c))))) := by
  refine ⟨?_, ?_⟩
  · intro c
    rw [List.mem_filter]
    simp
  · intro hne
    rw [runPipeline]
    rw [if_neg (by simpa [List.isEmpty_iff] using hne)]

/-- Counterexample to C7's "only fatal condition" part: with every required
column present the pipeline still halts fatally — through the uncaught
`AttributeError` of a numeric email cell, and through the uncaught
`KeyError` of a header-only CSV, whose zero-row normalized frame has no
columns when it is filtered/reordered. -/
theorem C7_counterexample :
    runPipeline ["email_1", "email_2", "email_3", "first_name", "last_name"] [cexRowC7] true
      = Except.error (PipeErr.uncaught "AttributeError: strip on non-string value") ∧
    runPipeline ["email_1", "email_2", "email_3", "first_name", "last_name"] [] true
      = Except.error (PipeErr.uncaught "KeyError: email") ∧
    requiredColumns.filter
        (fun c => !(["email_1", "email_2", "email_3", "first_name", "last_name"].contains c))
      = [] :=
  ⟨rfl, rfl, rfl⟩

end RIMailchimp
